import Mathlib

/-!
Shallow embedding of `supervisor/validate.py` (hassio-supervisor): the
composite validators (`network_port`, `wait_boot`, `docker_image`, `dns_url`,
`dns_server_list`, `validate_repository`, `repositories`, ...) and the
declarative schemas (`SCHEMA_HASS_CONFIG`, `SCHEMA_SUPERVISOR_CONFIG`,
`SCHEMA_INGRESS_CONFIG`) built on top of the voluptuous-style validation
engine.  Python values are modelled by the inductive `Value`; machine
behaviour (string handling) is modelled over ASCII, which covers every
constant and pattern appearing in the source.  Stateful behaviour (the lazy
`uuid.uuid4().hex` default) is modelled by explicit state passing: a
generator stream `Nat → String` together with a counter threaded through the
mapping engine.
-/

namespace Validate

/-- ASCII model of the regex class `\w`: alphanumeric or underscore. -/
def isWordChar (c : Char) : Bool := c.isAlphanum || c = '_'

/-- Split a character list at the first occurrence of `c`:
`some (before, after)` when `c` occurs, `none` otherwise. -/
def splitFirst (c : Char) : List Char → Option (List Char × List Char)
  | [] => none
  | x :: xs =>
    if x = c then some ([], xs)
    else (splitFirst c xs).map (fun p => (x :: p.1, p.2))

/-- Split a character list at every occurrence of `c`, like Python's
`str.split(c)`: always returns at least one (possibly empty) part. -/
def splitAll (c : Char) : List Char → List (List Char)
  | [] => [[]]
  | x :: xs =>
    let r := splitAll c xs
    if x = c then [] :: r
    else
      match r with
      | h :: t => (x :: h) :: t
      | [] => [[x]]

/-- Model of a decoded in-memory Python value (the engine's input/output
domain).  Floats are represented by rationals. -/
inductive Value where
  | vNone : Value
  | vBool : Bool → Value
  | vInt : Int → Value
  | vFloat : Rat → Value
  | vStr : String → Value
  | vList : List Value → Value
  | vDict : List (String × Value) → Value

/-- Validation errors, following the spec's taxonomy: type coercion,
constraint violations (range / length / pattern / membership / uniqueness),
missing required fields, unexpected keys, structural mismatches, and custom
`Invalid` messages raised by hand-written validators. -/
inductive VErr where
  | typeCoercion : String → VErr
  | rangeViolation : String → VErr
  | lengthViolation : String → VErr
  | patternViolation : String → VErr
  | membershipViolation : String → VErr
  | uniquenessViolation : String → VErr
  | missingRequired : String → VErr
  | unexpectedKey : String → VErr
  | structuralMismatch : String → VErr
  | invalid : String → VErr
deriving DecidableEq

/-- A validator: a pure function from a raw value to a normalized value or
an error (pipeline stage semantics). -/
def Validator : Type := Value → Except VErr Value

/-- Strip leading ASCII whitespace characters (model of Python's `str.strip`
as used by `int()`). -/
def stripLeft (l : List Char) : List Char :=
  l.dropWhile (fun c => c = ' ' || c = '\t' || c = '\n' || c = '\r')

/-- Strip leading and trailing ASCII whitespace. -/
def stripWs (l : List Char) : List Char :=
  (stripLeft (stripLeft l).reverse).reverse

/-- Decimal digits to a natural number (`none` when empty or non-digit). -/
def digitsToNat : List Char → Option Nat
  | [] => none
  | l =>
    if l.all Char.isDigit then
      some (l.foldl (fun acc c => acc * 10 + (c.toNat - 48)) 0)
    else none

/-- Model of Python `int(s)` on a string: optional surrounding whitespace,
optional sign, then one or more ASCII decimal digits (digit-group
underscores and non-ASCII digits are not modelled; no constant in the
source uses them). -/
def parseIntStr (s : String) : Option Int :=
  match stripWs s.data with
  | [] => none
  | '+' :: rest => (digitsToNat rest).map Int.ofNat
  | '-' :: rest => (digitsToNat rest).map (fun n => - Int.ofNat n)
  | l => (digitsToNat l).map Int.ofNat

/-- Model of Python `int(v)`: identity on ints, bools are 0/1, floats
truncate toward zero, strings parse as decimal integers, everything else
raises (`TypeError`). -/
def coerceInt : Value → Option Int
  | Value.vInt n => some n
  | Value.vBool b => some (if b then 1 else 0)
  | Value.vFloat q => some (q.num.tdiv q.den)
  | Value.vStr s => parseIntStr s
  | _ => none

/-- Decimal rendering of an integer (Python `str(int)`). -/
def intToStr (n : Int) : String := toString n

/-- Model of Python `str(v)` for the value model: scalars render as Python
renders them; lists and dicts render via `repr` (modelled structurally with
single-quoted strings). -/
def pyStr : Value → String
  | Value.vNone => "None"
  | Value.vBool b => if b then "True" else "False"
  | Value.vInt n => intToStr n
  | Value.vFloat q => toString q.num ++ "/" ++ toString q.den
  | Value.vStr s => s
  | Value.vList _ => "[...]"
  | Value.vDict _ => "{...}"

/-- Decimal-fraction parser for Python `float(s)` as far as the source can
exercise it: optional sign, digits with an optional single point (exponent
forms, `inf` and `nan` are not modelled; no source schema feeds them). -/
def parseFloatStr (s : String) : Option Rat :=
  match stripWs s.data with
  | [] => none
  | l =>
    let core := fun (m : List Char) =>
      match splitFirst '.' m with
      | none => (digitsToNat m).map (fun n => (n : Rat))
      | some (a, b) =>
        if a = [] && b = [] then none
        else
          match digitsToNat (a ++ b), a, b with
          | some n, _, _ => some ((n : Rat) / ((10 : Rat) ^ b.length))
          | none, [], bs =>
            (digitsToNat bs).map (fun n => (n : Rat) / ((10 : Rat) ^ bs.length))
          | none, as_, [] => (digitsToNat as_).map (fun n => (n : Rat))
          | _, _, _ => none
    match l with
    | '+' :: rest => core rest
    | '-' :: rest => (core rest).map Neg.neg
    | _ => core l

/-- Model of Python `float(v)`: numbers convert, strings parse, everything
else raises. -/
def coerceFloat : Value → Option Rat
  | Value.vInt n => some (n : Rat)
  | Value.vBool b => some (if b then 1 else 0)
  | Value.vFloat q => some q
  | Value.vStr s => parseFloatStr s
  | _ => none

/-- `vol.Coerce(int)`: coerce or fail with a type-coercion error. -/
def coerceIntV : Validator := fun v =>
  match coerceInt v with
  | some n => Except.ok (Value.vInt n)
  | none => Except.error (VErr.typeCoercion "expected int")

/-- `vol.Coerce(str)`: `str()` succeeds on every modelled value. -/
def coerceStrV : Validator := fun v => Except.ok (Value.vStr (pyStr v))

/-- `vol.Coerce(float)`. -/
def coerceFloatV : Validator := fun v =>
  match coerceFloat v with
  | some q => Except.ok (Value.vFloat q)
  | none => Except.error (VErr.typeCoercion "expected float")

/-- Bounds test of `vol.Range(min?, max?)` on an integer. -/
def rangeCheck (lo hi : Option Int) (n : Int) : Bool :=
  (match lo with | some l => decide (l ≤ n) | none => true) &&
  (match hi with | some h => decide (n ≤ h) | none => true)

/-- `vol.Range(min?, max?)`: passes the value through when inside the
bounds; in the source it always runs after `Coerce(int)`, so only integer
inputs occur. -/
def rangeV (lo hi : Option Int) : Validator := fun v =>
  match v with
  | Value.vInt n =>
    if rangeCheck lo hi n then Except.ok (Value.vInt n)
    else Except.error (VErr.rangeViolation "value out of range")
  | _ => Except.error (VErr.structuralMismatch "expected a comparable value")

/-- `vol.Match(pattern)`: requires a string and a full-pattern match. -/
def matchV (pat : String → Bool) (msg : String) : Validator := fun v =>
  match v with
  | Value.vStr s =>
    if pat s then Except.ok (Value.vStr s)
    else Except.error (VErr.patternViolation msg)
  | _ => Except.error (VErr.patternViolation "expected string or buffer")

/-- `vol.All(...)`: pipeline of validators, applied left to right, first
failure short-circuits. -/
def allV (vs : List Validator) : Validator := fun v =>
  vs.foldlM (fun acc f => f acc) v

/-- Lowercase hexadecimal digit (`[0-9a-f]`). -/
def isLowerHex (c : Char) : Bool := c.isDigit || ('a' ≤ c && c ≤ 'f')

/-- Full match of `^[0-9a-f]{lo,hi}$`. -/
def hexMatch (lo hi : Nat) (s : String) : Bool :=
  lo ≤ s.length && s.length ≤ hi && s.all isLowerHex

/-- `network_port = vol.All(vol.Coerce(int), vol.Range(min=1, max=65535))`. -/
def network_port : Validator := allV [coerceIntV, rangeV (some 1) (some 65535)]

/-- `wait_boot = vol.All(vol.Coerce(int), vol.Range(min=1, max=60))`
(module level, line 44; used by `SCHEMA_SUPERVISOR_CONFIG`). -/
def wait_boot : Validator := allV [coerceIntV, rangeV (some 1) (some 60)]

/-- The distinct inline wait-boot pipeline of `SCHEMA_HASS_CONFIG`
(lines 109-111): `vol.All(vol.Coerce(int), vol.Range(min=60))`. -/
def hass_wait_boot : Validator := allV [coerceIntV, rangeV (some 60) none]

/-- Character class of the first `docker_image` segment: `[\w{}]`. -/
def dockerNsChar (c : Char) : Bool := isWordChar c || c = '{' || c = '}'

/-- Character class of the second `docker_image` segment: `[\-\w{}]`. -/
def dockerNameChar (c : Char) : Bool := c = '-' || dockerNsChar c

/-- Full match of the `docker_image` regex `^[\w{}]+/[\-\w{}]+$`: since
neither class contains `/`, the pattern splits the string at its first
slash. -/
def dockerImageMatch (s : String) : Bool :=
  match splitFirst '/' s.data with
  | some (ns, nm) =>
    !ns.isEmpty && !nm.isEmpty && ns.all dockerNsChar && nm.all dockerNameChar
  | none => false

/-- `docker_image = vol.Match(r"^[\w\x7b\x7d]+/[\-\w\x7b\x7d]+$")`. -/
def docker_image : Validator := matchV dockerImageMatch "docker image format"

/-- `uuid_match = vol.Match(r"^[0-9a-f]\x7b32\x7d$")`. -/
def uuid_match : Validator := matchV (hexMatch 32 32) "uuid format"

/-- `sha256 = vol.Match(r"^[0-9a-f]\x7b64\x7d$")`. -/
def sha256 : Validator := matchV (hexMatch 64 64) "sha256 format"

/-- `token = vol.Match(r"^[0-9a-f]\x7b32,256\x7d$")`. -/
def token : Validator := matchV (hexMatch 32 256) "token format"

/-- Candidate set of `log_level`. -/
def LOG_LEVELS : List String := ["debug", "info", "warning", "error", "critical"]

/-- `log_level = vol.In([...])`: set membership. -/
def log_level : Validator := fun v =>
  match v with
  | Value.vStr s =>
    if LOG_LEVELS.contains s then Except.ok (Value.vStr s)
    else Except.error (VErr.membershipViolation "value must be one of the log levels")
  | _ => Except.error (VErr.membershipViolation "value must be one of the log levels")

/-- Python truthiness `bool(v)` for non-string values. -/
def pyTruthy : Value → Bool
  | Value.vNone => false
  | Value.vBool b => b
  | Value.vInt n => decide (n ≠ 0)
  | Value.vFloat q => decide (q ≠ 0)
  | Value.vStr s => !s.isEmpty
  | Value.vList l => !l.isEmpty
  | Value.vDict m => !m.isEmpty

/-- `vol.Boolean()`: strings map through the fixed truthy/falsy word lists
(case-insensitively) or fail; any other value maps through `bool(v)`. -/
def booleanV : Validator := fun v =>
  match v with
  | Value.vStr s =>
    let t := s.toLower
    if (["1", "true", "yes", "on", "enable"].contains t) then
      Except.ok (Value.vBool true)
    else if (["0", "false", "no", "off", "disable"].contains t) then
      Except.ok (Value.vBool false)
    else Except.error (VErr.typeCoercion "expected boolean")
  | _ => Except.ok (Value.vBool (pyTruthy v))

/-- `vol.Maybe(f)`: `None` passes through unchanged, otherwise `f`. -/
def maybeV (f : Validator) : Validator := fun v =>
  match v with
  | Value.vNone => Except.ok Value.vNone
  | _ => f v

/-- One dotted-quad octet per `ipaddress.IPv4Address`: one to three decimal
digits with value at most 255 (the Python 3.8-era library the source runs
on accepts leading zeros). -/
def parseOctet (p : List Char) : Bool :=
  !p.isEmpty && p.length ≤ 3 && p.all Char.isDigit &&
    (match digitsToNat p with
     | some n => decide (n ≤ 255)
     | none => false)

/-- `ipaddress.IPv4Address` acceptance: exactly four octets separated by
dots. -/
def isIPv4Chars (l : List Char) : Bool :=
  match splitAll '.' l with
  | [a, b, c, d] => parseOctet a && parseOctet b && parseOctet c && parseOctet d
  | _ => false

/-- Hexadecimal digit of either case. -/
def isHexChar (c : Char) : Bool :=
  c.isDigit || ('a' ≤ c && c ≤ 'f') || ('A' ≤ c && c ≤ 'F')

/-- One IPv6 hextet: one to four hexadecimal digits. -/
def validHextet (p : List Char) : Bool :=
  !p.isEmpty && p.length ≤ 4 && p.all isHexChar

/-- Structural acceptance of `ipaddress.IPv6Address._ip_int_from_string`
over the colon-separated parts (after the trailing embedded-IPv4 part, if
any, has been replaced by two synthetic hextets): at most 9 parts; at most
one empty interior part (the `::`); an empty leading/trailing part only as
half of a leading/trailing `::`; the non-skipped parts are valid hextets
and leave at least one group to the `::`; without `::`, exactly 8 valid
hextets. -/
def isIPv6Parts (parts : List (List Char)) : Bool :=
  let n := parts.length
  if n > 9 then false
  else
    let interior := (parts.drop 1).take (n - 2)
    let empties := (interior.filter List.isEmpty).length
    if empties = 0 then
      n = 8 && parts.all validHextet
    else if empties = 1 then
      let skip := (interior.findIdx List.isEmpty) + 1
      let headEmpty := (parts.headD ['x']).isEmpty
      let tailEmpty := (parts.getLastD ['x']).isEmpty
      (if headEmpty then skip = 1 else true) &&
      (if tailEmpty then skip = n - 2 else true) &&
      (let hi := if headEmpty then 0 else skip
       let lo := if tailEmpty then 0 else n - skip - 1
       decide (hi + lo < 8) &&
       (parts.take hi).all validHextet &&
       (parts.drop (n - lo)).all validHextet)
    else false

/-- `ipaddress.IPv6Address` acceptance: split on colons, require at least
three parts, substitute a valid embedded trailing IPv4 part by two
synthetic hextets, then check the group structure. -/
def isIPv6Chars (l : List Char) : Bool :=
  if l.isEmpty then false
  else
    let parts0 := splitAll ':' l
    if parts0.length < 3 then false
    else
      let lst := parts0.getLastD []
      if lst.contains '.' then
        if isIPv4Chars lst then isIPv6Parts (parts0.dropLast ++ [['0'], ['0']])
        else false
      else isIPv6Parts parts0

/-- `ipaddress.ip_address(address)` acceptance on a string: a valid IPv4 or
IPv6 literal (hostnames are never accepted). -/
def ip_address (l : List Char) : Bool := isIPv4Chars l || isIPv6Chars l

/-- `dns_url` (lines 52-61): `url.lower().startswith("dns://")` — modelled
character-wise: the first six characters, lowercased, must read `dns://`
— then `url[6:]` must be an IP literal; returns the input unchanged on
success. -/
def dns_url (url : String) : Except VErr String :=
  if (url.data.take 6).map Char.toLower = "dns://".data then
    if ip_address (url.data.drop 6) then Except.ok url
    else Except.error (VErr.invalid ("Invalid DNS URL: " ++ url))
  else Except.error (VErr.invalid "Doesn't start with dns://")

/-- Element-wise validation of a sequence (`[validator]` in voluptuous):
each element in order, fail-fast, output in input order. -/
def mapExcept (f : String → Except VErr String) : List String → Except VErr (List String)
  | [] => Except.ok []
  | x :: xs => do
    let y ← f x
    let ys ← mapExcept f xs
    pure (y :: ys)

/-- `dns_server_list = vol.All(vol.Length(max=8), [dns_url])`: the length
cap is checked first, then each element is validated. -/
def dns_server_list (xs : List String) : Except VErr (List String) :=
  if xs.length ≤ 8 then mapExcept dns_url xs
  else Except.error (VErr.lengthViolation "length of value must be at most 8")

/-- Characters `urllib.parse` accepts inside a scheme. -/
def isSchemeChar (c : Char) : Bool :=
  c.isAlphanum || c = '+' || c = '-' || c = '.'

/-- Scheme extraction of `urllib.parse.urlsplit`: a colon at a positive
index whose prefix is all scheme characters yields the lowercased scheme
and the remainder; otherwise the scheme is empty. -/
def splitScheme (l : List Char) : List Char × List Char :=
  match splitFirst ':' l with
  | some (before, after) =>
    if !before.isEmpty && before.all isSchemeChar then
      (before.map Char.toLower, after)
    else ([], l)
  | none => ([], l)

/-- Netloc extraction of `urllib.parse.urlsplit`: after the scheme, a
leading `//` opens the netloc, which extends to the next `/`, `?` or `#`. -/
def netlocOf (l : List Char) : List Char :=
  match l with
  | '/' :: '/' :: rest => rest.takeWhile (fun c => c ≠ '/' && c ≠ '?' && c ≠ '#')
  | _ => []

/-- `vol.Url()` acceptance: `urlparse` yields a non-empty scheme and a
non-empty netloc. -/
def urlValid (s : String) : Bool :=
  let p := splitScheme s.data
  !p.1.isEmpty && !(netlocOf p.2).isEmpty

/-- Branch characters of `RE_REPOSITORY`: `[\w\-]`. -/
def branchChar (c : Char) : Bool := isWordChar c || c = '-'

/-- Match of `RE_REPOSITORY = ^(?P<url>[^#]+)(?:#(?P<branch>[\w\-]+))?$`:
returns the captured url and optional branch.  Since `[^#]+` cannot cross a
`#`, the url group is everything before the first `#`; a present branch
must be a non-empty run of word characters and hyphens. -/
def RE_REPOSITORY (s : String) : Option (String × Option String) :=
  match splitFirst '#' s.data with
  | none => if s.isEmpty then none else some (s, none)
  | some (u, b) =>
    if !u.isEmpty && !b.isEmpty && b.all branchChar then
      some (String.mk u, some (String.mk b))
    else none

/-- `validate_repository` (lines 67-77): regex match, then `vol.Url()` on
the captured url group; returns the input unchanged on success. -/
def validate_repository (repository : String) : Except VErr String :=
  match RE_REPOSITORY repository with
  | none => Except.error (VErr.invalid "No valid repository format!")
  | some (url, _branch) =>
    if urlValid url then Except.ok repository
    else Except.error (VErr.invalid "expected a URL")

/-- `repositories = vol.All([validate_repository], vol.Unique())`: each
element is validated first (in order, outputs in input order), then the
validated list must be duplicate-free. -/
def repositories (xs : List String) : Except VErr (List String) := do
  let ys ← mapExcept validate_repository xs
  if ys.Nodup then pure ys
  else Except.error (VErr.uniquenessViolation "contains duplicate items")

/-- A field default: absent, an eager value, or a lazily-evaluated default
(a zero-argument callable in the source, e.g. `lambda: uuid.uuid4().hex` or
the builtin `dict`), modelled by explicit state passing: the callable is
fed the current invocation counter and the counter advances by one per
invocation. -/
inductive Default where
  | noDefault : Default
  | value : Value → Default
  | lazy : (Nat → Value) → Default

/-- Whether a default is the lazily-evaluated kind. -/
def Default.isLazy : Default → Bool
  | Default.lazy _ => true
  | _ => false

/-- One declared field of a fixed-key mapping schema: key, required flag
(`vol.Required` vs `vol.Optional`), default, and value validator. -/
structure Field where
  key : String
  required : Bool
  default : Default
  validator : Validator

/-- Policy for input keys not declared by the schema. -/
inductive ExtraPolicy where
  | removeExtra : ExtraPolicy
  | preventExtra : ExtraPolicy
deriving DecidableEq

/-- A fixed-key mapping schema (`vol.Schema({...}, extra=...)`): declared
fields in declaration order plus the extra-key policy. -/
structure MSchema where
  fields : List Field
  extra : ExtraPolicy

/-- The declared key set of a mapping schema. -/
def declaredKeys (s : MSchema) : List String := s.fields.map Field.key

/-- First value bound to `key` in an association-list mapping. -/
def lookupKey : List (String × Value) → String → Option Value
  | [], _ => none
  | (k, v) :: rest, key => if k = key then some v else lookupKey rest key

/-- Modelled from the spec: the mapping walk of the validation engine
(voluptuous `Schema._compile_mapping`, an external library), per spec
section 4.3: declared fields are processed in declaration order; a present
field is validated by its validator; an absent field resolves its default
(lazy defaults are invoked exactly once, advancing the counter) or errors
when required without default; defaults are inserted without being
validated.  Fail-fast error mode.  Returns the normalized output together
with the final lazy-invocation counter. -/
def validateFields :
    List Field → List (String × Value) → Nat →
    Except VErr (List (String × Value)) × Nat
  | [], _, cnt => (Except.ok [], cnt)
  | f :: fs, m, cnt =>
    match lookupKey m f.key with
    | some v =>
      match f.validator v with
      | Except.error e => (Except.error e, cnt)
      | Except.ok w =>
        match validateFields fs m cnt with
        | (Except.ok out, cnt2) => (Except.ok ((f.key, w) :: out), cnt2)
        | r => r
    | none =>
      match f.default with
      | Default.value d =>
        match validateFields fs m cnt with
        | (Except.ok out, cnt2) => (Except.ok ((f.key, d) :: out), cnt2)
        | r => r
      | Default.lazy g =>
        match validateFields fs m (cnt + 1) with
        | (Except.ok out, cnt2) => (Except.ok ((f.key, g cnt) :: out), cnt2)
        | r => r
      | Default.noDefault =>
        if f.required then (Except.error (VErr.missingRequired f.key), cnt)
        else validateFields fs m cnt

/-- Modelled from the spec: full mapping validation — the extra-key policy
governs undeclared input keys (`RemoveSilently` drops them without error,
`Reject` raises `UnexpectedKey` naming the offending key), then the
declared fields are walked. -/
def validateMapping (s : MSchema) (m : List (String × Value)) (cnt : Nat) :
    Except VErr (List (String × Value)) × Nat :=
  match s.extra with
  | ExtraPolicy.removeExtra => validateFields s.fields m cnt
  | ExtraPolicy.preventExtra =>
    match m.find? (fun p => !(declaredKeys s).contains p.1) with
    | some p => (Except.error (VErr.unexpectedKey p.1), cnt)
    | none => validateFields s.fields m cnt

/-- Modelled from the spec: dynamic-key mapping entries — every key is fed
to the key validator (as a string value) and every value to the value
validator; no notion of required/extra applies. -/
def validateDynEntries (kv vv : Validator) :
    List (String × Value) → Except VErr (List (String × Value))
  | [] => Except.ok []
  | (k, v) :: rest => do
    let k2 ← kv (Value.vStr k)
    let v2 ← vv v
    let tail ← validateDynEntries kv vv rest
    pure ((pyStr k2, v2) :: tail)

/-- Modelled from the spec: a dynamic-key mapping schema node as a value
validator (non-dictionaries are structural mismatches). -/
def validateDynMapping (kv vv : Validator) : Validator := fun v =>
  match v with
  | Value.vDict m => (validateDynEntries kv vv m).map Value.vDict
  | _ => Except.error (VErr.structuralMismatch "expected a dictionary")

/-- Modelled from the spec: `ATTR_UUID` from `const.py` (not under `src/`);
the `ATTR_*` constants are the lowercase spellings of their suffixes. -/
def ATTR_UUID : String := "uuid"

/-- Modelled from the spec: `ATTR_VERSION` from `const.py`. -/
def ATTR_VERSION : String := "version"

/-- Modelled from the spec: `ATTR_IMAGE` from `const.py`. -/
def ATTR_IMAGE : String := "image"

/-- Modelled from the spec: `ATTR_ACCESS_TOKEN` from `const.py`. -/
def ATTR_ACCESS_TOKEN : String := "access_token"

/-- Modelled from the spec: `ATTR_BOOT` from `const.py`. -/
def ATTR_BOOT : String := "boot"

/-- Modelled from the spec: `ATTR_PORT` from `const.py`. -/
def ATTR_PORT : String := "port"

/-- Modelled from the spec: `ATTR_REFRESH_TOKEN` from `const.py`. -/
def ATTR_REFRESH_TOKEN : String := "refresh_token"

/-- Modelled from the spec: `ATTR_SSL` from `const.py`. -/
def ATTR_SSL : String := "ssl"

/-- Modelled from the spec: `ATTR_WATCHDOG` from `const.py`. -/
def ATTR_WATCHDOG : String := "watchdog"

/-- Modelled from the spec: `ATTR_WAIT_BOOT` from `const.py`. -/
def ATTR_WAIT_BOOT : String := "wait_boot"

/-- Modelled from the spec: `ATTR_AUDIO_OUTPUT` from `const.py`. -/
def ATTR_AUDIO_OUTPUT : String := "audio_output"

/-- Modelled from the spec: `ATTR_AUDIO_INPUT` from `const.py`. -/
def ATTR_AUDIO_INPUT : String := "audio_input"

/-- Modelled from the spec: `ATTR_TIMEZONE` from `const.py`. -/
def ATTR_TIMEZONE : String := "timezone"

/-- Modelled from the spec: `ATTR_LAST_BOOT` from `const.py`. -/
def ATTR_LAST_BOOT : String := "last_boot"

/-- Modelled from the spec: `ATTR_ADDONS_CUSTOM_LIST` from `const.py`. -/
def ATTR_ADDONS_CUSTOM_LIST : String := "addons_custom_list"

/-- Modelled from the spec: `ATTR_LOGGING` from `const.py`. -/
def ATTR_LOGGING : String := "logging"

/-- Modelled from the spec: `ATTR_DEBUG` from `const.py`. -/
def ATTR_DEBUG : String := "debug"

/-- Modelled from the spec: `ATTR_DEBUG_BLOCK` from `const.py`. -/
def ATTR_DEBUG_BLOCK : String := "debug_block"

/-- Modelled from the spec: `ATTR_SESSION` from `const.py`. -/
def ATTR_SESSION : String := "session"

/-- Modelled from the spec: `ATTR_PORTS` from `const.py`. -/
def ATTR_PORTS : String := "ports"

/-- Modelled from the spec: `validate_timezone` lives in
`utils/validate.py`, which is not under `src/`; the spec fixes only its
contract — string in, same string out when the name is in the IANA zone
database (modelled by the predicate parameter `tz`), constraint violation
otherwise. -/
def validate_timezone (tz : String → Bool) : Validator := fun v =>
  match v with
  | Value.vStr s =>
    if tz s then Except.ok (Value.vStr s)
    else Except.error (VErr.rangeViolation "invalid timezone")
  | _ => Except.error (VErr.rangeViolation "invalid timezone")

/-- `repositories` lifted to the value domain for use as a field validator
(`[validate_repository]` requires a list; the source passes string
elements). -/
def repositoriesV : Validator := fun v =>
  match v with
  | Value.vList xs =>
    match xs.mapM (fun x => match x with
                            | Value.vStr s => some s
                            | _ => none) with
    | some ss =>
      (repositories ss).map (fun ys => Value.vList (ys.map Value.vStr))
    | none => Except.error (VErr.structuralMismatch "expected a list of strings")
  | _ => Except.error (VErr.structuralMismatch "expected a list")

/-- `SCHEMA_HASS_CONFIG` (lines 98-116), parameterized by the stream `gen`
of `uuid.uuid4().hex` outcomes; the `uuid` field is the only lazy default,
in first declaration position; `extra=vol.REMOVE_EXTRA`. -/
def SCHEMA_HASS_CONFIG (gen : Nat → String) : MSchema :=
  { fields :=
      [ { key := ATTR_UUID, required := false,
          default := Default.lazy (fun k => Value.vStr (gen k)),
          validator := uuid_match },
        { key := ATTR_VERSION, required := false, default := Default.noDefault,
          validator := maybeV coerceStrV },
        { key := ATTR_IMAGE, required := false, default := Default.noDefault,
          validator := docker_image },
        { key := ATTR_ACCESS_TOKEN, required := false, default := Default.noDefault,
          validator := token },
        { key := ATTR_BOOT, required := false,
          default := Default.value (Value.vBool true), validator := booleanV },
        { key := ATTR_PORT, required := false,
          default := Default.value (Value.vInt 8123), validator := network_port },
        { key := ATTR_REFRESH_TOKEN, required := false, default := Default.noDefault,
          validator := maybeV coerceStrV },
        { key := ATTR_SSL, required := false,
          default := Default.value (Value.vBool false), validator := booleanV },
        { key := ATTR_WATCHDOG, required := false,
          default := Default.value (Value.vBool true), validator := booleanV },
        { key := ATTR_WAIT_BOOT, required := false,
          default := Default.value (Value.vInt 600), validator := hass_wait_boot },
        { key := ATTR_AUDIO_OUTPUT, required := false,
          default := Default.value Value.vNone, validator := maybeV coerceStrV },
        { key := ATTR_AUDIO_INPUT, required := false,
          default := Default.value Value.vNone, validator := maybeV coerceStrV } ],
    extra := ExtraPolicy.removeExtra }

/-- `SCHEMA_SUPERVISOR_CONFIG` (lines 148-162), parameterized by the IANA
zone database predicate; its `wait_boot` field (line 156) uses the
module-level `wait_boot` validator with default `5`;
`extra=vol.REMOVE_EXTRA`. -/
def SCHEMA_SUPERVISOR_CONFIG (tz : String → Bool) : MSchema :=
  { fields :=
      [ { key := ATTR_TIMEZONE, required := false,
          default := Default.value (Value.vStr "UTC"),
          validator := validate_timezone tz },
        { key := ATTR_LAST_BOOT, required := false, default := Default.noDefault,
          validator := coerceStrV },
        { key := ATTR_ADDONS_CUSTOM_LIST, required := false,
          default := Default.value
            (Value.vList [Value.vStr "https://github.com/hassio-addons/repository"]),
          validator := repositoriesV },
        { key := ATTR_WAIT_BOOT, required := false,
          default := Default.value (Value.vInt 5), validator := wait_boot },
        { key := ATTR_LOGGING, required := false,
          default := Default.value (Value.vStr "info"), validator := log_level },
        { key := ATTR_DEBUG, required := false,
          default := Default.value (Value.vBool false), validator := booleanV },
        { key := ATTR_DEBUG_BLOCK, required := false,
          default := Default.value (Value.vBool false), validator := booleanV } ],
    extra := ExtraPolicy.removeExtra }

/-- `SCHEMA_INGRESS_CONFIG` (lines 168-178): two `vol.Required` fields,
each carrying the callable default `dict` (a lazy default producing a fresh
empty dict per call), with dynamic-key mapping value schemas;
`extra=vol.REMOVE_EXTRA`. -/
def SCHEMA_INGRESS_CONFIG : MSchema :=
  { fields :=
      [ { key := ATTR_SESSION, required := true,
          default := Default.lazy (fun _ => Value.vDict []),
          validator := validateDynMapping token coerceFloatV },
        { key := ATTR_PORTS, required := true,
          default := Default.lazy (fun _ => Value.vDict []),
          validator := validateDynMapping coerceStrV network_port } ],
    extra := ExtraPolicy.removeExtra }

/-! ### Helper lemmas -/

/-- Bind on `Except` reduces on a success. -/
theorem exceptBind_ok {α β : Type} (x : α) (f : α → Except VErr β) :
    (Except.ok x : Except VErr α) >>= f = f x := rfl

/-- Bind on `Except` short-circuits on an error. -/
theorem exceptBind_error {α β : Type} (e : VErr) (f : α → Except VErr β) :
    (Except.error e : Except VErr α) >>= f = (Except.error e : Except VErr β) := rfl

/-- Soundness of `splitFirst`: a successful split decomposes the list at an
occurrence of the separator that is absent from the prefix. -/
theorem splitFirst_some {c : Char} :
    ∀ {l a b : List Char}, splitFirst c l = some (a, b) → l = a ++ c :: b ∧ c ∉ a := by
  intro l
  induction l with
  | nil => intro a b h; exact Option.noConfusion h
  | cons x xs ih =>
    intro a b h
    by_cases hx : x = c
    · subst hx
      rw [splitFirst, if_pos rfl] at h
      have h2 := Option.some.inj h
      injection h2 with h3 h4
      subst h3; subst h4
      exact ⟨rfl, by simp⟩
    · rw [splitFirst, if_neg hx] at h
      cases hs : splitFirst c xs with
      | none => rw [hs] at h; exact absurd h (by simp)
      | some p =>
        rw [hs] at h
        obtain ⟨a1, b1⟩ := p
        have h2 := Option.some.inj h
        injection h2 with h3 h4
        subst h3; subst h4
        obtain ⟨heq, hni⟩ := ih hs
        subst heq
        refine ⟨rfl, ?_⟩
        intro hmem
        rcases List.mem_cons.mp hmem with h1 | h1
        · exact hx h1.symm
        · exact hni h1

/-- Completeness of `splitFirst`: splitting at an occurrence whose prefix
avoids the separator succeeds with exactly that decomposition. -/
theorem splitFirst_append {c : Char} :
    ∀ (a b : List Char), c ∉ a → splitFirst c (a ++ c :: b) = some (a, b) := by
  intro a
  induction a with
  | nil => intro b _; simp [splitFirst]
  | cons a0 a1 ih =>
    intro b hni
    have h0 : a0 ≠ c := fun h => hni (h ▸ List.mem_cons_self a0 a1)
    have h1 : c ∉ a1 := fun h => hni (List.mem_cons_of_mem _ h)
    simp only [List.cons_append, splitFirst, if_neg h0, List.append_eq, ih b h1]
    rfl

/-- A pipeline `vol.All(vol.Coerce(int), vol.Range(lo, hi))` reduces to a
coercion followed by a bounds test. -/
theorem allV_coerce_range (lo hi : Option Int) (v : Value) :
    allV [coerceIntV, rangeV lo hi] v =
      match coerceInt v with
      | some n =>
        if rangeCheck lo hi n then Except.ok (Value.vInt n)
        else Except.error (VErr.rangeViolation "value out of range")
      | none => Except.error (VErr.typeCoercion "expected int") := by
  show (coerceIntV v >>= fun v1 => rangeV lo hi v1 >>= pure) = _
  cases h : coerceInt v with
  | none =>
    have hc : coerceIntV v = Except.error (VErr.typeCoercion "expected int") := by
      simp [coerceIntV, h]
    rw [hc, exceptBind_error]
  | some n =>
    have hc : coerceIntV v = Except.ok (Value.vInt n) := by
      simp [coerceIntV, h]
    rw [hc, exceptBind_ok]
    by_cases hr : rangeCheck lo hi n = true
    · simp only [rangeV, hr, if_true]; rfl
    · simp only [rangeV, hr, Bool.false_eq_true, if_false]; rfl

/-- Element-wise validation with a validator that returns its input
unchanged on success is the identity on lists of valid elements. -/
theorem mapExcept_ok_id (f : String → Except VErr String) :
    ∀ xs : List String, (∀ x ∈ xs, f x = Except.ok x) →
      mapExcept f xs = Except.ok xs := by
  intro xs
  induction xs with
  | nil => intro _; rfl
  | cons a l ih =>
    intro h
    have ha : f a = Except.ok a := h a (List.mem_cons_self a l)
    have hl : mapExcept f l = Except.ok l := ih (fun x hx => h x (List.mem_cons_of_mem _ hx))
    show (f a >>= fun y => mapExcept f l >>= fun ys => pure (y :: ys)) = _
    rw [ha, exceptBind_ok, hl, exceptBind_ok]
    rfl

/-- Keys absent from the mapping look up to `none`. -/
theorem lookupKey_eq_none {m : List (String × Value)} {key : String}
    (h : key ∉ m.map Prod.fst) : lookupKey m key = none := by
  induction m with
  | nil => rfl
  | cons p rest ih =>
    simp only [List.map_cons, List.mem_cons] at h
    push_neg at h
    simp [lookupKey, Ne.symm h.1, ih h.2]

/-- Filtering a mapping by a key predicate preserves lookups of keys that
satisfy the predicate. -/
theorem lookupKey_filter {q : String → Bool} :
    ∀ (m : List (String × Value)) (key : String), q key = true →
      lookupKey (m.filter (fun p => q p.1)) key = lookupKey m key := by
  intro m
  induction m with
  | nil => intro key _; rfl
  | cons p rest ih =>
    obtain ⟨k, v⟩ := p
    intro key hq
    by_cases hk : k = key
    · subst hk
      simp only [List.filter_cons, hq, if_true, lookupKey, if_pos rfl]
    · by_cases hqp : q k = true
      · simp only [List.filter_cons, hqp, if_true, lookupKey, if_neg hk, ih key hq]
      · simp only [List.filter_cons, hqp, Bool.false_eq_true, if_false, lookupKey,
          if_neg hk, ih key hq]

/-- The field walk reads the input only at declared keys: filtering the
input to any key set containing every declared key changes nothing. -/
theorem validateFields_filter {q : String → Bool} :
    ∀ (fields : List Field) (m : List (String × Value)) (cnt : Nat),
      (∀ f ∈ fields, q f.key = true) →
      validateFields fields (m.filter (fun p => q p.1)) cnt = validateFields fields m cnt := by
  intro fields
  induction fields with
  | nil => intro m cnt _; rfl
  | cons f fs ih =>
    intro m cnt h
    have hf : q f.key = true := h f (List.mem_cons_self f fs)
    have hfs : ∀ g ∈ fs, q g.key = true := fun g hg => h g (List.mem_cons_of_mem _ hg)
    simp only [validateFields, lookupKey_filter m f.key hf, ih m cnt hfs, ih m (cnt + 1) hfs]

/-- Every key of a successful field-walk output is a declared field key. -/
theorem validateFields_keys :
    ∀ (fields : List Field) (m : List (String × Value)) (cnt : Nat)
      (out : List (String × Value)) (cnt2 : Nat),
      validateFields fields m cnt = (Except.ok out, cnt2) →
      ∀ p ∈ out, p.1 ∈ fields.map Field.key := by
  intro fields
  induction fields with
  | nil =>
    intro m cnt out cnt2 h p hp
    simp only [validateFields, Prod.mk.injEq] at h
    obtain ⟨h1, -⟩ := h
    have : out = [] := (Except.ok.inj h1).symm
    subst this
    simp at hp
  | cons f fs ih =>
    intro m cnt out cnt2 h p hp
    cases hl : lookupKey m f.key with
    | some v =>
      simp only [validateFields, hl] at h
      cases hv : f.validator v with
      | error e => simp only [hv, Prod.mk.injEq] at h; exact absurd h.1 (by simp)
      | ok w =>
        simp only [hv] at h
        cases hrec : validateFields fs m cnt with
        | mk r c2 =>
          rw [hrec] at h
          cases r with
          | error e => simp only [Prod.mk.injEq] at h; exact absurd h.1 (by simp)
          | ok tail =>
            simp only [Prod.mk.injEq] at h
            obtain ⟨h1, h2⟩ := h
            have hout : out = (f.key, w) :: tail := (Except.ok.inj h1).symm
            subst hout
            rcases List.mem_cons.mp hp with rfl | htail
            · simp
            · exact List.mem_cons_of_mem _ (ih m cnt tail c2 hrec p htail)
    | none =>
      cases hd : f.default with
      | value d =>
        simp only [validateFields, hl, hd] at h
        cases hrec : validateFields fs m cnt with
        | mk r c2 =>
          rw [hrec] at h
          cases r with
          | error e => simp only [Prod.mk.injEq] at h; exact absurd h.1 (by simp)
          | ok tail =>
            simp only [Prod.mk.injEq] at h
            obtain ⟨h1, h2⟩ := h
            have hout : out = (f.key, d) :: tail := (Except.ok.inj h1).symm
            subst hout
            rcases List.mem_cons.mp hp with rfl | htail
            · simp
            · exact List.mem_cons_of_mem _ (ih m cnt tail c2 hrec p htail)
      | lazy g =>
        simp only [validateFields, hl, hd] at h
        cases hrec : validateFields fs m (cnt + 1) with
        | mk r c2 =>
          rw [hrec] at h
          cases r with
          | error e => simp only [Prod.mk.injEq] at h; exact absurd h.1 (by simp)
          | ok tail =>
            simp only [Prod.mk.injEq] at h
            obtain ⟨h1, h2⟩ := h
            have hout : out = (f.key, g cnt) :: tail := (Except.ok.inj h1).symm
            subst hout
            rcases List.mem_cons.mp hp with rfl | htail
            · simp
            · exact List.mem_cons_of_mem _ (ih m (cnt + 1) tail c2 hrec p htail)
      | noDefault =>
        simp only [validateFields, hl, hd] at h
        by_cases hreq : f.required = true
        · simp only [hreq, if_true, Prod.mk.injEq] at h; exact absurd h.1 (by simp)
        · simp only [hreq, Bool.false_eq_true, if_false] at h
          exact List.mem_cons_of_mem _ (ih m cnt out cnt2 h p hp)

/-- A field walk over fields without lazy defaults never advances the
invocation counter. -/
theorem validateFields_counter :
    ∀ (fields : List Field) (m : List (String × Value)) (cnt : Nat),
      (∀ f ∈ fields, f.default.isLazy = false) →
      (validateFields fields m cnt).2 = cnt := by
  intro fields
  induction fields with
  | nil => intro m cnt _; rfl
  | cons f fs ih =>
    intro m cnt h
    have hf : f.default.isLazy = false := h f (List.mem_cons_self f fs)
    have hfs : ∀ g ∈ fs, g.default.isLazy = false := fun g hg => h g (List.mem_cons_of_mem _ hg)
    cases hl : lookupKey m f.key with
    | some v =>
      simp only [validateFields, hl]
      cases hv : f.validator v with
      | error e => rfl
      | ok w =>
        cases hrec : validateFields fs m cnt with
        | mk r c2 =>
          have hc : c2 = cnt := by
            have h2 := ih m cnt hfs
            rw [hrec] at h2
            exact h2
          cases r with
          | error e => simpa using hc
          | ok tail => simpa using hc
    | none =>
      cases hd : f.default with
      | value d =>
        simp only [validateFields, hl, hd]
        cases hrec : validateFields fs m cnt with
        | mk r c2 =>
          have hc : c2 = cnt := by
            have h2 := ih m cnt hfs
            rw [hrec] at h2
            exact h2
          cases r with
          | error e => simpa using hc
          | ok tail => simpa using hc
      | lazy g => rw [hd] at hf; exact absurd hf (by simp [Default.isLazy])
      | noDefault =>
        simp only [validateFields, hl, hd]
        by_cases hreq : f.required = true
        · simp [hreq]
        · simp only [hreq, Bool.false_eq_true, if_false]
          exact ih m cnt hfs

/-- `Range(min=lo, max=hi)` bounds test unfolded. -/
theorem rangeCheck_some_some (lo hi n : Int) :
    rangeCheck (some lo) (some hi) n = true ↔ lo ≤ n ∧ n ≤ hi := by
  simp [rangeCheck]

/-- `Range(min=lo)` bounds test unfolded. -/
theorem rangeCheck_some_none (lo n : Int) :
    rangeCheck (some lo) none n = true ↔ lo ≤ n := by
  simp [rangeCheck]

/-! ### Claims -/

/-- C4: `network_port` runs integer coercion first and the 1..65535 range
check second: a string succeeds exactly when it coerces to an integer in
that range, returning the integer; `"0"`, `"65536"` and `"-1"` coerce
successfully and then fail with the range (constraint) error; `"abc"`
fails at the coercion stage; whenever coercion fails the resulting error is
the coercion error, never the range error. -/
theorem C4_network_port_coerce_then_range :
    (∀ (s : String) (n : Int),
        network_port (Value.vStr s) = Except.ok (Value.vInt n) ↔
          coerceInt (Value.vStr s) = some n ∧ 1 ≤ n ∧ n ≤ 65535) ∧
    (∀ s : String, coerceInt (Value.vStr s) = none →
        network_port (Value.vStr s) = Except.error (VErr.typeCoercion "expected int")) ∧
    (∀ (s : String) (n : Int), coerceInt (Value.vStr s) = some n →
        ¬ (1 ≤ n ∧ n ≤ 65535) →
        network_port (Value.vStr s) = Except.error (VErr.rangeViolation "value out of range")) ∧
    network_port (Value.vStr "0") = Except.error (VErr.rangeViolation "value out of range") ∧
    network_port (Value.vStr "65536") = Except.error (VErr.rangeViolation "value out of range") ∧
    network_port (Value.vStr "-1") = Except.error (VErr.rangeViolation "value out of range") ∧
    network_port (Value.vStr "abc") = Except.error (VErr.typeCoercion "expected int") := by
  refine ⟨?_, ?_, ?_, rfl, rfl, rfl, rfl⟩
  · intro s n
    simp only [network_port, allV_coerce_range]
    cases h : coerceInt (Value.vStr s) with
    | none => simp
    | some m =>
      simp only []
      by_cases hr : rangeCheck (some 1) (some 65535) m = true
      · rw [if_pos hr]
        constructor
        · intro he
          have hm := Value.vInt.inj (Except.ok.inj he)
          subst hm
          exact ⟨rfl, (rangeCheck_some_some 1 65535 m).mp hr⟩
        · rintro ⟨h1, -⟩
          have hm : m = n := Option.some.inj h1
          subst hm
          rfl
      · rw [if_neg hr]
        constructor
        · intro he; exact Except.noConfusion he
        · rintro ⟨h1, h2⟩
          have hm : m = n := Option.some.inj h1
          subst hm
          exact absurd ((rangeCheck_some_some 1 65535 m).mpr h2) hr
  · intro s h
    simp only [network_port, allV_coerce_range, h]
  · intro s n h hnot
    simp only [network_port, allV_coerce_range, h]
    rw [if_neg (fun hr => hnot ((rangeCheck_some_some 1 65535 n).mp hr))]

/-- C4 witness: the valid port string `"8123"` and the non-numeric string
`"abc"`, via the theorem. -/
theorem C4_witness :
    network_port (Value.vStr "8123") = Except.ok (Value.vInt 8123) ∧
    network_port (Value.vStr "abc") = Except.error (VErr.typeCoercion "expected int") :=
  ⟨(C4_network_port_coerce_then_range.1 "8123" 8123).mpr ⟨rfl, by decide, by decide⟩,
   C4_network_port_coerce_then_range.2.1 "abc" rfl⟩

/-- C1 (amended): the bounds are attributed the other way round than the
claim states — the module-level `wait_boot` validator, which is the one
attached to the `wait_boot` field of `SCHEMA_SUPERVISOR_CONFIG`, accepts
after coercion exactly the integers in [1, 60], while the distinct inline
wait-boot pipeline of the Home Assistant config `SCHEMA_HASS_CONFIG`
accepts exactly the coerced integers ≥ 60 with no upper bound; when
coercion fails both variants fail. -/
theorem C1_wait_boot_bounds :
    (∀ tz, ∃ f ∈ (SCHEMA_SUPERVISOR_CONFIG tz).fields,
        f.key = ATTR_WAIT_BOOT ∧ f.validator = wait_boot) ∧
    (∀ gen, ∃ f ∈ (SCHEMA_HASS_CONFIG gen).fields,
        f.key = ATTR_WAIT_BOOT ∧ f.validator = hass_wait_boot) ∧
    (∀ (v : Value) (n : Int), coerceInt v = some n →
        ((wait_boot v = Except.ok (Value.vInt n)) ↔ 1 ≤ n ∧ n ≤ 60) ∧
        ((hass_wait_boot v = Except.ok (Value.vInt n)) ↔ 60 ≤ n)) ∧
    (∀ v : Value, coerceInt v = none →
        wait_boot v = Except.error (VErr.typeCoercion "expected int") ∧
        hass_wait_boot v = Except.error (VErr.typeCoercion "expected int")) := by
  refine ⟨?_, ?_, ?_, ?_⟩
  · intro tz
    refine ⟨{ key := ATTR_WAIT_BOOT, required := false,
              default := Default.value (Value.vInt 5), validator := wait_boot }, ?_, rfl, rfl⟩
    exact List.mem_cons_of_mem _ (List.mem_cons_of_mem _ (List.mem_cons_of_mem _
      (List.mem_cons_self _ _)))
  · intro gen
    refine ⟨{ key := ATTR_WAIT_BOOT, required := false,
              default := Default.value (Value.vInt 600), validator := hass_wait_boot }, ?_, rfl, rfl⟩
    exact List.mem_cons_of_mem _ (List.mem_cons_of_mem _ (List.mem_cons_of_mem _
      (List.mem_cons_of_mem _ (List.mem_cons_of_mem _ (List.mem_cons_of_mem _
        (List.mem_cons_of_mem _ (List.mem_cons_of_mem _ (List.mem_cons_of_mem _
          (List.mem_cons_self _ _)))))))))
  · intro v n h
    constructor
    · simp only [wait_boot, allV_coerce_range, h]
      by_cases hr : rangeCheck (some 1) (some 60) n = true
      · rw [if_pos hr]
        simp only [Except.ok.injEq, Value.vInt.injEq]
        constructor
        · intro _; exact (rangeCheck_some_some 1 60 n).mp hr
        · intro _; trivial
      · rw [if_neg hr]
        constructor
        · intro he; exact Except.noConfusion he
        · intro hb; exact absurd ((rangeCheck_some_some 1 60 n).mpr hb) hr
    · simp only [hass_wait_boot, allV_coerce_range, h]
      by_cases hr : rangeCheck (some 60) none n = true
      · rw [if_pos hr]
        simp only [Except.ok.injEq, Value.vInt.injEq]
        constructor
        · intro _; exact (rangeCheck_some_none 60 n).mp hr
        · intro _; trivial
      · rw [if_neg hr]
        constructor
        · intro he; exact Except.noConfusion he
        · intro hb; exact absurd ((rangeCheck_some_none 60 n).mpr hb) hr
  · intro v h
    constructor
    · simp only [wait_boot, allV_coerce_range, h]
    · simp only [hass_wait_boot, allV_coerce_range, h]

/-- C1 counterexample: at the concrete input 5 the claim's attribution
fails — the `wait_boot` field of `SCHEMA_SUPERVISOR_CONFIG` accepts 5
(indeed the whole supervisor config validates, 5 being the declared
default) although 5 < 60, and the wait-boot field of `SCHEMA_HASS_CONFIG`
rejects 5 although 1 ≤ 5 ≤ 60. -/
theorem C1_counterexample :
    validateMapping (SCHEMA_SUPERVISOR_CONFIG (fun _ => false))
        [(ATTR_WAIT_BOOT, Value.vInt 5)] 0 =
      (Except.ok
        [(ATTR_TIMEZONE, Value.vStr "UTC"),
         (ATTR_ADDONS_CUSTOM_LIST,
          Value.vList [Value.vStr "https://github.com/hassio-addons/repository"]),
         (ATTR_WAIT_BOOT, Value.vInt 5),
         (ATTR_LOGGING, Value.vStr "info"),
         (ATTR_DEBUG, Value.vBool false),
         (ATTR_DEBUG_BLOCK, Value.vBool false)], 0) ∧
    ¬ (60 ≤ (5 : Int)) ∧
    validateMapping (SCHEMA_HASS_CONFIG (fun _ => ""))
        [(ATTR_WAIT_BOOT, Value.vInt 5)] 0 =
      (Except.error (VErr.rangeViolation "value out of range"), 1) ∧
    1 ≤ (5 : Int) ∧ (5 : Int) ≤ 60 :=
  ⟨rfl, by decide, rfl, by decide, by decide⟩

/-- C1 witness: concrete evaluations through the amended theorem at the
coerced integers 30 (supervisor variant accepts) and 600 (hass variant
accepts). -/
theorem C1_witness :
    wait_boot (Value.vStr "30") = Except.ok (Value.vInt 30) ∧
    hass_wait_boot (Value.vInt 600) = Except.ok (Value.vInt 600) :=
  ⟨((C1_wait_boot_bounds.2.2.1 (Value.vStr "30") 30 rfl).1).mpr (by decide),
   ((C1_wait_boot_bounds.2.2.1 (Value.vInt 600) 600 rfl).2).mpr (by decide)⟩

/-- The first docker-image segment class, spelled out. -/
theorem dockerNsChar_iff (ch : Char) :
    dockerNsChar ch = true ↔
      (ch.isAlphanum = true ∨ ch = '_' ∨ ch = '{' ∨ ch = '}') := by
  simp only [dockerNsChar, isWordChar, Bool.or_eq_true, decide_eq_true_eq]
  tauto

/-- The second docker-image segment class, spelled out. -/
theorem dockerNameChar_iff (ch : Char) :
    dockerNameChar ch = true ↔
      (ch.isAlphanum = true ∨ ch = '_' ∨ ch = '-' ∨ ch = '{' ∨ ch = '}') := by
  simp only [dockerNameChar, dockerNsChar, isWordChar, Bool.or_eq_true, decide_eq_true_eq]
  tauto

/-- C2 (amended): `docker_image` succeeds exactly on strings of the form
`namespace/name` where the namespace is a non-empty run over alphanumerics,
underscores and brace characters, and the name is a non-empty run over
alphanumerics, underscores, hyphens and brace characters — the hyphen is
permitted only in the name segment, not the namespace, and braces are
accepted as plain characters with no balanced-placeholder requirement. -/
theorem C2_docker_image_shape :
    (∀ s : String,
        docker_image (Value.vStr s) = Except.ok (Value.vStr s) ↔ dockerImageMatch s = true) ∧
    (∀ l : List Char,
        dockerImageMatch (String.mk l) = true ↔
          ∃ ns nm : List Char, l = ns ++ '/' :: nm ∧ ns ≠ [] ∧ nm ≠ [] ∧
            (∀ ch ∈ ns, ch.isAlphanum = true ∨ ch = '_' ∨ ch = '{' ∨ ch = '}') ∧
            (∀ ch ∈ nm,
              ch.isAlphanum = true ∨ ch = '_' ∨ ch = '-' ∨ ch = '{' ∨ ch = '}')) := by
  constructor
  · intro s
    constructor
    · intro h
      by_cases hm : dockerImageMatch s = true
      · exact hm
      · simp only [docker_image, matchV, hm, Bool.false_eq_true, if_false] at h
        exact Except.noConfusion h
    · intro hm
      simp only [docker_image, matchV, hm, if_true]
  · intro l
    constructor
    · intro h
      cases hs : splitFirst '/' l with
      | none =>
        rw [show dockerImageMatch (String.mk l) =
              (match splitFirst '/' l with
               | some (ns, nm) =>
                 !ns.isEmpty && !nm.isEmpty && ns.all dockerNsChar && nm.all dockerNameChar
               | none => false) from rfl, hs] at h
        exact Bool.noConfusion h
      | some p =>
        obtain ⟨ns, nm⟩ := p
        rw [show dockerImageMatch (String.mk l) =
              (match splitFirst '/' l with
               | some (ns, nm) =>
                 !ns.isEmpty && !nm.isEmpty && ns.all dockerNsChar && nm.all dockerNameChar
               | none => false) from rfl, hs] at h
        simp only [Bool.and_eq_true, Bool.not_eq_true', List.isEmpty_eq_false,
          List.all_eq_true] at h
        obtain ⟨⟨⟨hne1, hne2⟩, hall1⟩, hall2⟩ := h
        obtain ⟨hdec, -⟩ := splitFirst_some hs
        refine ⟨ns, nm, hdec, hne1, hne2, ?_, ?_⟩
        · intro ch hch; exact (dockerNsChar_iff ch).mp (hall1 ch hch)
        · intro ch hch; exact (dockerNameChar_iff ch).mp (hall2 ch hch)
    · rintro ⟨ns, nm, rfl, hne1, hne2, hc1, hc2⟩
      have hni : '/' ∉ ns := by
        intro hmem
        rcases hc1 '/' hmem with h | h | h | h
        · exact absurd h (by decide)
        · exact absurd h (by decide)
        · exact absurd h (by decide)
        · exact absurd h (by decide)
      rw [show dockerImageMatch (String.mk (ns ++ '/' :: nm)) =
            (match splitFirst '/' (ns ++ '/' :: nm) with
             | some (a, b) =>
               !a.isEmpty && !b.isEmpty && a.all dockerNsChar && b.all dockerNameChar
             | none => false) from rfl, splitFirst_append ns nm hni]
      simp only [Bool.and_eq_true, Bool.not_eq_true', List.isEmpty_eq_false,
        List.all_eq_true]
      refine ⟨⟨⟨hne1, hne2⟩, ?_⟩, ?_⟩
      · intro ch hch; exact (dockerNsChar_iff ch).mpr (hc1 ch hch)
      · intro ch hch; exact (dockerNameChar_iff ch).mpr (hc2 ch hch)

/-- C2 counterexample: `"a-b/c"` — a hyphen in the namespace segment — is
rejected although the claim permits hyphens in either segment, and
`"a\x7bb/c"`, with a lone unbalanced brace, is accepted although it contains
no brace-delimited placeholder. -/
theorem C2_counterexample :
    docker_image (Value.vStr "a-b/c") =
      Except.error (VErr.patternViolation "docker image format") ∧
    docker_image (Value.vStr "a\x7bb/c") = Except.ok (Value.vStr "a\x7bb/c") :=
  ⟨rfl, rfl⟩

/-- C2 witness: a realistic templated image reference accepted through the
amended theorem. -/
theorem C2_witness :
    docker_image (Value.vStr "homeassistant/{arch}-hassio-supervisor") =
      Except.ok (Value.vStr "homeassistant/{arch}-hassio-supervisor") :=
  (C2_docker_image_shape.1 "homeassistant/{arch}-hassio-supervisor").mpr rfl

/-- C3: `dns_url` succeeds — returning the input string unchanged — exactly
when the input starts with `dns://` compared case-insensitively (via
lowercasing) and the remainder after the first six characters parses as a
valid IPv4 or IPv6 literal address; any other scheme fails with the scheme
error, and a non-address remainder (e.g. a hostname) fails with the
descriptive address error. -/
theorem C3_dns_url_scheme_and_ip :
    (∀ url : String,
        (∃ w, dns_url url = Except.ok w) ↔
          ((url.data.take 6).map Char.toLower = "dns://".data ∧
            ip_address (url.data.drop 6) = true)) ∧
    (∀ url w, dns_url url = Except.ok w → w = url) ∧
    dns_url "dns://192.168.1.1" = Except.ok "dns://192.168.1.1" ∧
    dns_url "http://192.168.1.1" = Except.error (VErr.invalid "Doesn't start with dns://") ∧
    dns_url "dns://not-an-ip" =
      Except.error (VErr.invalid "Invalid DNS URL: dns://not-an-ip") := by
  refine ⟨?_, ?_, rfl, rfl, rfl⟩
  · intro url
    by_cases h1 : (url.data.take 6).map Char.toLower = "dns://".data
    · by_cases h2 : ip_address (url.data.drop 6) = true
      · simp only [dns_url, if_pos h1, if_pos h2]
        constructor
        · intro _; exact ⟨h1, h2⟩
        · intro _; exact ⟨url, rfl⟩
      · simp only [dns_url, if_pos h1, if_neg h2]
        constructor
        · rintro ⟨w, hw⟩; exact Except.noConfusion hw
        · rintro ⟨-, hb⟩; exact absurd hb h2
    · simp only [dns_url, if_neg h1]
      constructor
      · rintro ⟨w, hw⟩; exact Except.noConfusion hw
      · rintro ⟨ha, -⟩; exact absurd ha h1
  · intro url w h
    by_cases h1 : (url.data.take 6).map Char.toLower = "dns://".data
    · by_cases h2 : ip_address (url.data.drop 6) = true
      · simp only [dns_url, if_pos h1, if_pos h2] at h
        exact (Except.ok.inj h).symm
      · simp only [dns_url, if_pos h1, if_neg h2] at h
        exact Except.noConfusion h
    · simp only [dns_url, if_neg h1] at h
      exact Except.noConfusion h

/-- C3 witness: an uppercase-scheme IPv6 DNS URL accepted through the
theorem. -/
theorem C3_witness : ∃ w, dns_url "DNS://2001:db8::1" = Except.ok w :=
  (C3_dns_url_scheme_and_ip.1 "DNS://2001:db8::1").mpr ⟨rfl, rfl⟩

/-- C5: `validate_repository` succeeds — returning the input unchanged —
exactly when the repository-reference regex matches (everything before an
optional `#branch` suffix, the branch restricted to word characters and
hyphens) and the captured url group then passes URL validation (non-empty
scheme and host); the two spec examples succeed with the expected branch
captures and `"not a url#dev"` fails at the URL stage. -/
theorem C5_repository_two_stage :
    (∀ r : String,
        validate_repository r = Except.ok r ↔
          ∃ u br, RE_REPOSITORY r = some (u, br) ∧ urlValid u = true) ∧
    (∀ r w, validate_repository r = Except.ok w → w = r) ∧
    (∀ r u br b, RE_REPOSITORY r = some (u, br) → br = some b →
        b ≠ "" ∧ b.data.all branchChar = true) ∧
    validate_repository "https://github.com/org/repo" =
      Except.ok "https://github.com/org/repo" ∧
    RE_REPOSITORY "https://github.com/org/repo" =
      some ("https://github.com/org/repo", none) ∧
    validate_repository "https://github.com/org/repo#dev" =
      Except.ok "https://github.com/org/repo#dev" ∧
    RE_REPOSITORY "https://github.com/org/repo#dev" =
      some ("https://github.com/org/repo", some "dev") ∧
    validate_repository "not a url#dev" = Except.error (VErr.invalid "expected a URL") := by
  refine ⟨?_, ?_, ?_, rfl, rfl, rfl, rfl, rfl⟩
  · intro r
    constructor
    · intro h
      cases hm : RE_REPOSITORY r with
      | none =>
        simp only [validate_repository, hm] at h
        exact Except.noConfusion h
      | some p =>
        obtain ⟨u, br⟩ := p
        simp only [validate_repository, hm] at h
        by_cases hu : urlValid u = true
        · exact ⟨u, br, rfl, hu⟩
        · rw [if_neg hu] at h
          exact Except.noConfusion h
    · rintro ⟨u, br, hm, hu⟩
      simp only [validate_repository, hm, hu, if_true]
  · intro r w h
    cases hm : RE_REPOSITORY r with
    | none =>
      simp only [validate_repository, hm] at h
      exact Except.noConfusion h
    | some p =>
      obtain ⟨u, br⟩ := p
      simp only [validate_repository, hm] at h
      by_cases hu : urlValid u = true
      · rw [if_pos hu] at h
        exact (Except.ok.inj h).symm
      · rw [if_neg hu] at h
        exact Except.noConfusion h
  · intro r u br b hm hb
    subst hb
    cases hs : splitFirst '#' r.data with
    | none =>
      simp only [RE_REPOSITORY, hs] at hm
      by_cases he : r.isEmpty = true
      · rw [if_pos he] at hm
        exact Option.noConfusion hm
      · rw [if_neg he] at hm
        have h2 := Option.some.inj hm
        injection h2 with h3 h4
        exact Option.noConfusion h4
    | some p =>
      obtain ⟨u0, b0⟩ := p
      simp only [RE_REPOSITORY, hs] at hm
      by_cases hc : (!u0.isEmpty && !b0.isEmpty && b0.all branchChar) = true
      · rw [if_pos hc] at hm
        have h2 := Option.some.inj hm
        injection h2 with h3 h4
        have h5 := Option.some.inj h4
        subst h5
        simp only [Bool.and_eq_true, Bool.not_eq_true', List.isEmpty_eq_false] at hc
        obtain ⟨⟨-, hb0⟩, hall⟩ := hc
        constructor
        · intro heq
          exact hb0 (congrArg String.data heq)
        · exact List.all_eq_true.mpr fun ch hch => (List.all_eq_true.mp hall) ch hch
      · rw [if_neg hc] at hm
        exact Option.noConfusion hm

/-- C5 witness: a branch-qualified repository accepted through the
theorem. -/
theorem C5_witness :
    validate_repository "https://example.com/x#main" = Except.ok "https://example.com/x#main" :=
  (C5_repository_two_stage.1 "https://example.com/x#main").mpr
    ⟨"https://example.com/x", some "main", rfl, rfl⟩

/-- C6: `repositories` validates each element with `validate_repository`
first and then rejects the whole list with the uniqueness error whenever
two elements are equal, even though every element individually validated;
when all elements are valid and pairwise distinct the result is the input
list itself, order preserved. -/
theorem C6_repositories_unique_ordered :
    ∀ xs : List String, (∀ x ∈ xs, validate_repository x = Except.ok x) →
      (xs.Nodup → repositories xs = Except.ok xs) ∧
      (¬ xs.Nodup →
        repositories xs =
          Except.error (VErr.uniquenessViolation "contains duplicate items")) := by
  intro xs h
  have hmap : mapExcept validate_repository xs = Except.ok xs := mapExcept_ok_id _ xs h
  constructor
  · intro hnd
    show (mapExcept validate_repository xs >>= fun ys =>
        if ys.Nodup then pure ys
        else Except.error (VErr.uniquenessViolation "contains duplicate items")) = _
    rw [hmap, exceptBind_ok, if_pos hnd]
    rfl
  · intro hnd
    show (mapExcept validate_repository xs >>= fun ys =>
        if ys.Nodup then pure ys
        else Except.error (VErr.uniquenessViolation "contains duplicate items")) = _
    rw [hmap, exceptBind_ok, if_neg hnd]

/-- C6 witness: a duplicated valid repository fails uniqueness; two
distinct valid repositories pass in input order. -/
theorem C6_witness :
    repositories ["https://github.com/org/repo", "https://github.com/org/repo"] =
      Except.error (VErr.uniquenessViolation "contains duplicate items") ∧
    repositories ["https://github.com/org/a", "https://github.com/org/b"] =
      Except.ok ["https://github.com/org/a", "https://github.com/org/b"] := by
  constructor
  · refine (C6_repositories_unique_ordered _ ?_).2 (by decide)
    intro x hx
    rcases List.mem_cons.mp hx with rfl | hx2
    · rfl
    · rcases List.mem_cons.mp hx2 with rfl | hx3
      · rfl
      · cases hx3
  · refine (C6_repositories_unique_ordered _ ?_).1 (by decide)
    intro x hx
    rcases List.mem_cons.mp hx with rfl | hx2
    · rfl
    · rcases List.mem_cons.mp hx2 with rfl | hx3
      · rfl
      · cases hx3

/-- C7: `dns_server_list` accepts every list of at most 8 valid DNS URLs
(returning it unchanged) and rejects every list of 9 or more elements with
the length error — the cap is checked before per-element validation, so a
9-element list fails on length regardless of its elements. -/
theorem C7_dns_server_list_cap :
    ∀ xs : List String,
      (xs.length ≤ 8 → (∀ x ∈ xs, dns_url x = Except.ok x) →
          dns_server_list xs = Except.ok xs) ∧
      (9 ≤ xs.length →
          dns_server_list xs =
            Except.error (VErr.lengthViolation "length of value must be at most 8")) := by
  intro xs
  constructor
  · intro hlen hall
    simp only [dns_server_list, if_pos hlen]
    exact mapExcept_ok_id _ xs hall
  · intro hlen
    have hnot : ¬ xs.length ≤ 8 := by omega
    simp only [dns_server_list, if_neg hnot]

/-- C7 witness: a list of 8 valid DNS URLs accepted, and a 9-element list
of non-URLs rejected on length alone, through the theorem. -/
theorem C7_witness :
    dns_server_list ["dns://1.1.1.1", "dns://1.1.1.1", "dns://1.1.1.1", "dns://1.1.1.1",
        "dns://1.1.1.1", "dns://1.1.1.1", "dns://1.1.1.1", "dns://1.1.1.1"] =
      Except.ok ["dns://1.1.1.1", "dns://1.1.1.1", "dns://1.1.1.1", "dns://1.1.1.1",
        "dns://1.1.1.1", "dns://1.1.1.1", "dns://1.1.1.1", "dns://1.1.1.1"] ∧
    dns_server_list ["a", "b", "c", "d", "e", "f", "g", "h", "i"] =
      Except.error (VErr.lengthViolation "length of value must be at most 8") := by
  constructor
  · refine (C7_dns_server_list_cap _).1 (by decide) ?_
    intro x hx
    have hx2 : x = "dns://1.1.1.1" := by simpa using hx
    subst hx2
    rfl
  · exact (C7_dns_server_list_cap _).2 (by decide)

/-- C8: for every fixed-key mapping schema with the remove-silently
extra-key policy, validation reads the input only at declared keys —
validating any input is identical to validating the input filtered down to
the declared keys, so undeclared keys never cause failure and never affect
the result — and every key of a successful output is a declared key, so
undeclared keys never appear in the normalized output. -/
theorem C8_remove_extra_drops_undeclared :
    ∀ s : MSchema, s.extra = ExtraPolicy.removeExtra →
      ∀ (m : List (String × Value)) (cnt : Nat),
        validateMapping s m cnt =
          validateMapping s (m.filter (fun p => (declaredKeys s).contains p.1)) cnt ∧
        (∀ out cnt2, validateMapping s m cnt = (Except.ok out, cnt2) →
            ∀ p ∈ out, p.1 ∈ declaredKeys s) := by
  intro s hs m cnt
  have hq : ∀ f ∈ s.fields, (declaredKeys s).contains f.key = true := by
    intro f hf
    have hmem : f.key ∈ declaredKeys s := List.mem_map_of_mem Field.key hf
    exact List.elem_eq_true_of_mem hmem
  constructor
  · simp only [validateMapping, hs]
    exact (validateFields_filter s.fields m cnt hq).symm
  · intro out cnt2 h p hp
    simp only [validateMapping, hs] at h
    exact validateFields_keys s.fields m cnt out cnt2 h p hp

/-- C8 witness: `SCHEMA_HASS_CONFIG` (declared with `REMOVE_EXTRA`) on an
input holding the declared `boot` field and an undeclared `junk` field —
via the theorem, validation equals validation of the filtered input; by
evaluation it succeeds, with output holding `boot` and the declared
defaults but no `junk`. -/
theorem C8_witness :
    validateMapping (SCHEMA_HASS_CONFIG (fun _ => "w"))
        [(ATTR_BOOT, Value.vBool true), ("junk", Value.vInt 1)] 0 =
      validateMapping (SCHEMA_HASS_CONFIG (fun _ => "w"))
        ([(ATTR_BOOT, Value.vBool true), ("junk", Value.vInt 1)].filter
          (fun p => (declaredKeys (SCHEMA_HASS_CONFIG (fun _ => "w"))).contains p.1)) 0 ∧
    validateMapping (SCHEMA_HASS_CONFIG (fun _ => "w"))
        [(ATTR_BOOT, Value.vBool true), ("junk", Value.vInt 1)] 0 =
      (Except.ok
        [(ATTR_UUID, Value.vStr "w"), (ATTR_BOOT, Value.vBool true),
         (ATTR_PORT, Value.vInt 8123), (ATTR_SSL, Value.vBool false),
         (ATTR_WATCHDOG, Value.vBool true), (ATTR_WAIT_BOOT, Value.vInt 600),
         (ATTR_AUDIO_OUTPUT, Value.vNone), (ATTR_AUDIO_INPUT, Value.vNone)], 1) :=
  ⟨(C8_remove_extra_drops_undeclared (SCHEMA_HASS_CONFIG (fun _ => "w")) rfl
      [(ATTR_BOOT, Value.vBool true), ("junk", Value.vInt 1)] 0).1, rfl⟩

/-- Unfolding step: a mapping walk whose head field is absent from the
input and carries a lazy default invokes the callable once — advancing the
counter — and conses the generated value onto the remaining walk's
output. -/
theorem validateFields_lazy_head (key : String) (g : Nat → Value) (vd : Validator)
    (req : Bool) (rest : List Field) (m : List (String × Value)) (cnt : Nat)
    (h : lookupKey m key = none) :
    validateFields
        ({ key := key, required := req, default := Default.lazy g, validator := vd } :: rest)
        m cnt =
      match validateFields rest m (cnt + 1) with
      | (Except.ok out, c2) => (Except.ok ((key, g cnt) :: out), c2)
      | r => r := by
  simp only [validateFields, h]

/-- None of the non-uuid fields of `SCHEMA_HASS_CONFIG` carries a lazy
default. -/
theorem hass_tail_noLazy (gen : Nat → String) :
    ∀ f ∈ (SCHEMA_HASS_CONFIG gen).fields.drop 1, f.default.isLazy = false := by
  intro f hf
  simp only [SCHEMA_HASS_CONFIG, List.drop_succ_cons, List.drop_zero, List.mem_cons,
    List.not_mem_nil, or_false] at hf
  rcases hf with rfl | rfl | rfl | rfl | rfl | rfl | rfl | rfl | rfl | rfl | rfl <;> rfl

/-- One validation call on `SCHEMA_HASS_CONFIG` with the uuid field absent
from the input: the lazy default is invoked exactly once — the counter
advances by exactly one whatever the outcome — and on success the output's
uuid entry is the value generated at the starting counter. -/
theorem hass_call (gen : Nat → String) (m : List (String × Value)) (cnt : Nat)
    (h : ATTR_UUID ∉ m.map Prod.fst) :
    (validateMapping (SCHEMA_HASS_CONFIG gen) m cnt).2 = cnt + 1 ∧
    (∀ out cnt1, validateMapping (SCHEMA_HASS_CONFIG gen) m cnt = (Except.ok out, cnt1) →
        lookupKey out ATTR_UUID = some (Value.vStr (gen cnt))) := by
  have hlk : lookupKey m ATTR_UUID = none := lookupKey_eq_none h
  have hstep : validateMapping (SCHEMA_HASS_CONFIG gen) m cnt =
      match validateFields ((SCHEMA_HASS_CONFIG gen).fields.drop 1) m (cnt + 1) with
      | (Except.ok out, c2) => (Except.ok ((ATTR_UUID, Value.vStr (gen cnt)) :: out), c2)
      | r => r := by
    show validateFields (SCHEMA_HASS_CONFIG gen).fields m cnt = _
    exact validateFields_lazy_head ATTR_UUID (fun k => Value.vStr (gen k)) uuid_match
      false ((SCHEMA_HASS_CONFIG gen).fields.drop 1) m cnt hlk
  have hcnt : (validateFields ((SCHEMA_HASS_CONFIG gen).fields.drop 1) m (cnt + 1)).2 =
      cnt + 1 :=
    validateFields_counter _ m (cnt + 1) (hass_tail_noLazy gen)
  constructor
  · rw [hstep]
    cases hrec : validateFields ((SCHEMA_HASS_CONFIG gen).fields.drop 1) m (cnt + 1) with
    | mk r c2 =>
      have hc : c2 = cnt + 1 := by rw [hrec] at hcnt; exact hcnt
      cases r with
      | error e => simpa using hc
      | ok out => simpa using hc
  · intro out cnt1 hok
    rw [hstep] at hok
    cases hrec : validateFields ((SCHEMA_HASS_CONFIG gen).fields.drop 1) m (cnt + 1) with
    | mk r c2 =>
      rw [hrec] at hok
      cases r with
      | error e => exact absurd hok (by simp)
      | ok tail =>
        simp only [Prod.mk.injEq] at hok
        obtain ⟨h1, -⟩ := hok
        have hout : out = (ATTR_UUID, Value.vStr (gen cnt)) :: tail := (Except.ok.inj h1).symm
        subst hout
        simp [lookupKey]

/-- C9: the uuid field of `SCHEMA_HASS_CONFIG` has the lazy default
`lambda: uuid.uuid4().hex`, modelled as drawing from the generator stream:
in every validation call whose input lacks the uuid field the callable is
invoked exactly once (the stream counter advances by exactly one, never
cached), a successful first call's output carries the value generated at
the starting counter, a successful second call carries the value generated
at the advanced counter, and for an injective generator (uuid4 collisions
never modelled) the two generated values differ. -/
theorem C9_uuid_lazy_fresh_per_call :
    ∀ (gen : Nat → String) (m1 m2 : List (String × Value)) (cnt : Nat),
      ATTR_UUID ∉ m1.map Prod.fst → ATTR_UUID ∉ m2.map Prod.fst →
      ((validateMapping (SCHEMA_HASS_CONFIG gen) m1 cnt).2 = cnt + 1) ∧
      (∀ out cnt1, validateMapping (SCHEMA_HASS_CONFIG gen) m1 cnt = (Except.ok out, cnt1) →
          lookupKey out ATTR_UUID = some (Value.vStr (gen cnt))) ∧
      ((validateMapping (SCHEMA_HASS_CONFIG gen) m2
          ((validateMapping (SCHEMA_HASS_CONFIG gen) m1 cnt).2)).2 = cnt + 1 + 1) ∧
      (∀ out cnt2,
          validateMapping (SCHEMA_HASS_CONFIG gen) m2 (cnt + 1) = (Except.ok out, cnt2) →
          lookupKey out ATTR_UUID = some (Value.vStr (gen (cnt + 1)))) ∧
      ((∀ a b : Nat, gen a = gen b → a = b) →
          Value.vStr (gen cnt) ≠ Value.vStr (gen (cnt + 1))) := by
  intro gen m1 m2 cnt h1 h2
  obtain ⟨hc1, hv1⟩ := hass_call gen m1 cnt h1
  obtain ⟨hc2, hv2⟩ := hass_call gen m2 (cnt + 1) h2
  refine ⟨hc1, hv1, ?_, hv2, ?_⟩
  · rw [hc1]; exact hc2
  · intro hinj heq
    have hab := hinj cnt (cnt + 1) (Value.vStr.inj heq)
    omega

/-- C9 witness: two empty-input calls with the decimal-name generator — the
counter advances by one, and the first call's output carries the value
generated at counter 0. -/
theorem C9_witness :
    (validateMapping (SCHEMA_HASS_CONFIG (fun n => toString n)) [] 0).2 = 0 + 1 ∧
    lookupKey
        [(ATTR_UUID, Value.vStr "0"), (ATTR_BOOT, Value.vBool true),
         (ATTR_PORT, Value.vInt 8123), (ATTR_SSL, Value.vBool false),
         (ATTR_WATCHDOG, Value.vBool true), (ATTR_WAIT_BOOT, Value.vInt 600),
         (ATTR_AUDIO_OUTPUT, Value.vNone), (ATTR_AUDIO_INPUT, Value.vNone)] ATTR_UUID =
      some (Value.vStr ((fun n => toString n) 0)) := by
  have h := C9_uuid_lazy_fresh_per_call (fun n => toString n) [] [] 0 (by simp) (by simp)
  exact ⟨h.1, h.2.1 _ _ rfl⟩

/-- `vol.Match` never raises a missing-required error. -/
theorem matchV_no_missing (pat : String → Bool) (msg : String) :
    ∀ (v : Value) (k : String), matchV pat msg v ≠ Except.error (VErr.missingRequired k) := by
  intro v k h
  cases v with
  | vStr s =>
    by_cases hp : pat s = true
    · simp only [matchV, if_pos hp] at h
      exact Except.noConfusion h
    · simp only [matchV, if_neg hp] at h
      exact VErr.noConfusion (Except.error.inj h)
  | vNone => exact VErr.noConfusion (Except.error.inj h)
  | vBool b => exact VErr.noConfusion (Except.error.inj h)
  | vInt n => exact VErr.noConfusion (Except.error.inj h)
  | vFloat q => exact VErr.noConfusion (Except.error.inj h)
  | vList l => exact VErr.noConfusion (Except.error.inj h)
  | vDict d => exact VErr.noConfusion (Except.error.inj h)

/-- `vol.Coerce(float)` never raises a missing-required error. -/
theorem coerceFloatV_no_missing :
    ∀ (v : Value) (k : String), coerceFloatV v ≠ Except.error (VErr.missingRequired k) := by
  intro v k h
  simp only [coerceFloatV] at h
  cases hc : coerceFloat v with
  | some q =>
    simp only [hc] at h
    exact Except.noConfusion h
  | none =>
    simp only [hc] at h
    exact VErr.noConfusion (Except.error.inj h)

/-- `vol.Coerce(str)` never fails at all. -/
theorem coerceStrV_no_missing :
    ∀ (v : Value) (k : String), coerceStrV v ≠ Except.error (VErr.missingRequired k) := by
  intro v k h
  exact Except.noConfusion h

/-- `network_port` never raises a missing-required error. -/
theorem network_port_no_missing :
    ∀ (v : Value) (k : String), network_port v ≠ Except.error (VErr.missingRequired k) := by
  intro v k h
  simp only [network_port, allV_coerce_range] at h
  cases hc : coerceInt v with
  | none =>
    simp only [hc] at h
    exact VErr.noConfusion (Except.error.inj h)
  | some n =>
    simp only [hc] at h
    by_cases hr : rangeCheck (some 1) (some 65535) n = true
    · rw [if_pos hr] at h
      exact Except.noConfusion h
    · rw [if_neg hr] at h
      exact VErr.noConfusion (Except.error.inj h)

/-- A dynamic-mapping entry walk whose key and value validators never raise
missing-required errors never raises one itself. -/
theorem validateDynEntries_no_missing (kv vv : Validator)
    (hk : ∀ u k, kv u ≠ Except.error (VErr.missingRequired k))
    (hv : ∀ u k, vv u ≠ Except.error (VErr.missingRequired k)) :
    ∀ (l : List (String × Value)) (k : String),
      validateDynEntries kv vv l ≠ Except.error (VErr.missingRequired k) := by
  intro l
  induction l with
  | nil => intro k h; exact Except.noConfusion h
  | cons p rest ih =>
    obtain ⟨ky, v⟩ := p
    intro k h
    have hdef : validateDynEntries kv vv ((ky, v) :: rest) =
        (kv (Value.vStr ky) >>= fun k2 => vv v >>= fun v2 =>
          validateDynEntries kv vv rest >>= fun tail => pure ((pyStr k2, v2) :: tail)) := rfl
    rw [hdef] at h
    cases h1 : kv (Value.vStr ky) with
    | error e =>
      rw [h1, exceptBind_error] at h
      exact hk (Value.vStr ky) k ((Except.error.inj h) ▸ h1)
    | ok k2 =>
      rw [h1, exceptBind_ok] at h
      cases h2 : vv v with
      | error e =>
        rw [h2, exceptBind_error] at h
        exact hv v k ((Except.error.inj h) ▸ h2)
      | ok v2 =>
        rw [h2, exceptBind_ok] at h
        cases h3 : validateDynEntries kv vv rest with
        | error e =>
          rw [h3, exceptBind_error] at h
          exact ih k ((Except.error.inj h) ▸ h3)
        | ok tail =>
          rw [h3, exceptBind_ok] at h
          exact Except.noConfusion h

/-- A dynamic-mapping schema node whose key and value validators never
raise missing-required errors never raises one: its own failures are
structural mismatches or the entry walk's failures. -/
theorem validateDynMapping_no_missing (kv vv : Validator)
    (hk : ∀ u k, kv u ≠ Except.error (VErr.missingRequired k))
    (hv : ∀ u k, vv u ≠ Except.error (VErr.missingRequired k)) :
    ∀ (v : Value) (k : String),
      validateDynMapping kv vv v ≠ Except.error (VErr.missingRequired k) := by
  intro v k h
  cases v with
  | vDict m =>
    simp only [validateDynMapping] at h
    cases h1 : validateDynEntries kv vv m with
    | error e =>
      rw [h1] at h
      exact validateDynEntries_no_missing kv vv hk hv m k ((Except.error.inj h) ▸ h1)
    | ok out =>
      rw [h1] at h
      exact Except.noConfusion h
  | vNone => exact VErr.noConfusion (Except.error.inj h)
  | vBool b => exact VErr.noConfusion (Except.error.inj h)
  | vInt n => exact VErr.noConfusion (Except.error.inj h)
  | vFloat q => exact VErr.noConfusion (Except.error.inj h)
  | vStr s => exact VErr.noConfusion (Except.error.inj h)
  | vList l => exact VErr.noConfusion (Except.error.inj h)

/-- C10: validating the empty mapping against `SCHEMA_INGRESS_CONFIG`
succeeds with `{session: {}, ports: {}}` (both `Required` fields resolve
their callable `dict` default, so the two lazy defaults are invoked), and
no input whatsoever makes this schema fail with a missing-required error —
absence of either required field always resolves to its default. -/
theorem C10_ingress_empty_defaults :
    (∀ cnt, validateMapping SCHEMA_INGRESS_CONFIG [] cnt =
        (Except.ok [(ATTR_SESSION, Value.vDict []), (ATTR_PORTS, Value.vDict [])],
          cnt + 2)) ∧
    (∀ (m : List (String × Value)) (cnt : Nat) (e : VErr) (cnt2 : Nat),
        validateMapping SCHEMA_INGRESS_CONFIG m cnt = (Except.error e, cnt2) →
        ∀ k, e ≠ VErr.missingRequired k) := by
  have hsess_nm := validateDynMapping_no_missing token coerceFloatV
    (matchV_no_missing (hexMatch 32 256) "token format") coerceFloatV_no_missing
  have hports_nm := validateDynMapping_no_missing coerceStrV network_port
    coerceStrV_no_missing network_port_no_missing
  constructor
  · intro cnt; rfl
  · intro m cnt e cnt2 h k heq
    subst heq
    cases hl1 : lookupKey m ATTR_SESSION with
    | some v1 =>
      cases hv1 : validateDynMapping token coerceFloatV v1 with
      | error e1 =>
        have hev : validateMapping SCHEMA_INGRESS_CONFIG m cnt = (Except.error e1, cnt) := by
          show validateFields SCHEMA_INGRESS_CONFIG.fields m cnt = _
          simp only [SCHEMA_INGRESS_CONFIG, validateFields, hl1, hv1]
        rw [hev] at h
        simp only [Prod.mk.injEq] at h
        exact hsess_nm v1 k ((Except.error.inj h.1) ▸ hv1)
      | ok w1 =>
        cases hl2 : lookupKey m ATTR_PORTS with
        | some v2 =>
          cases hv2 : validateDynMapping coerceStrV network_port v2 with
          | error e2 =>
            have hev : validateMapping SCHEMA_INGRESS_CONFIG m cnt =
                (Except.error e2, cnt) := by
              show validateFields SCHEMA_INGRESS_CONFIG.fields m cnt = _
              simp only [SCHEMA_INGRESS_CONFIG, validateFields, hl1, hv1, hl2, hv2]
            rw [hev] at h
            simp only [Prod.mk.injEq] at h
            exact hports_nm v2 k ((Except.error.inj h.1) ▸ hv2)
          | ok w2 =>
            have hev : validateMapping SCHEMA_INGRESS_CONFIG m cnt =
                (Except.ok [(ATTR_SESSION, w1), (ATTR_PORTS, w2)], cnt) := by
              show validateFields SCHEMA_INGRESS_CONFIG.fields m cnt = _
              simp only [SCHEMA_INGRESS_CONFIG, validateFields, hl1, hv1, hl2, hv2]
            rw [hev] at h
            simp only [Prod.mk.injEq] at h
            exact Except.noConfusion h.1
        | none =>
          have hev : validateMapping SCHEMA_INGRESS_CONFIG m cnt =
              (Except.ok [(ATTR_SESSION, w1), (ATTR_PORTS, Value.vDict [])], cnt + 1) := by
            show validateFields SCHEMA_INGRESS_CONFIG.fields m cnt = _
            simp only [SCHEMA_INGRESS_CONFIG, validateFields, hl1, hv1, hl2]
          rw [hev] at h
          simp only [Prod.mk.injEq] at h
          exact Except.noConfusion h.1
    | none =>
      cases hl2 : lookupKey m ATTR_PORTS with
      | some v2 =>
        cases hv2 : validateDynMapping coerceStrV network_port v2 with
        | error e2 =>
          have hev : validateMapping SCHEMA_INGRESS_CONFIG m cnt =
              (Except.error e2, cnt + 1) := by
            show validateFields SCHEMA_INGRESS_CONFIG.fields m cnt = _
            simp only [SCHEMA_INGRESS_CONFIG, validateFields, hl1, hl2, hv2]
          rw [hev] at h
          simp only [Prod.mk.injEq] at h
          exact hports_nm v2 k ((Except.error.inj h.1) ▸ hv2)
        | ok w2 =>
          have hev : validateMapping SCHEMA_INGRESS_CONFIG m cnt =
              (Except.ok [(ATTR_SESSION, Value.vDict []), (ATTR_PORTS, w2)], cnt + 1) := by
            show validateFields SCHEMA_INGRESS_CONFIG.fields m cnt = _
            simp only [SCHEMA_INGRESS_CONFIG, validateFields, hl1, hl2, hv2]
          rw [hev] at h
          simp only [Prod.mk.injEq] at h
          exact Except.noConfusion h.1
      | none =>
        have hev : validateMapping SCHEMA_INGRESS_CONFIG m cnt =
            (Except.ok [(ATTR_SESSION, Value.vDict []), (ATTR_PORTS, Value.vDict [])],
              cnt + 2) := by
          show validateFields SCHEMA_INGRESS_CONFIG.fields m cnt = _
          simp only [SCHEMA_INGRESS_CONFIG, validateFields, hl1, hl2]
        rw [hev] at h
        simp only [Prod.mk.injEq] at h
        exact Except.noConfusion h.1

/-- C10 witness: the empty mapping at counter 0, via the theorem. -/
theorem C10_witness :
    validateMapping SCHEMA_INGRESS_CONFIG [] 0 =
      (Except.ok [(ATTR_SESSION, Value.vDict []), (ATTR_PORTS, Value.vDict [])], 0 + 2) :=
  C10_ingress_empty_defaults.1 0

end Validate
